import Mathlib

/-!
Verification of the aggregation and time-series engine of
`jira-resolved-issue-aggregator` (`src/main.py`).

Shallow embedding conventions, chosen to match the observable behaviour of
the Python source:

* Calendar dates are modelled as integers (a day number).  Both date fields
  are truncated to midnight by `round_down_time` in the source, so
  `timedelta.days` between two truncated datetimes is the exact difference
  of the day numbers.  `day_key` formats a date with `'%d.%m.%Y'`, which is
  injective on representable dates, so the dictionary key is modelled by
  the day number itself.
* A raw CSV cell holding a date is modelled by `DateField`: `valid d` stands
  for a string that `datetime.strptime(_, '%d.%m.%y %H:%M')` parses to day
  `d`, and `invalid` for a string it rejects (raising the error the spec
  calls `MalformedRecordError`).
* The points cell is modelled by `PointsField`: `empty` is the empty string
  and `num q` a numeric value (the Jira acquisition path always delivers a
  number, computed by `int(... or 0)`).  Python floats are modelled by `ℚ`.
* Python's `dict` is modelled by an insertion-ordered association list:
  lookup returns the first binding, updating an existing key keeps its
  position, and inserting a new key appends it at the end.
* Failures (`ValueError` from `strptime`, `KeyError` from an unrecognized
  issue-type key) are modelled with `Except MalformedRecordError`; a failing
  row aborts the whole fold, just as the uncaught Python exception aborts
  the run, so the partially mutated dictionary of the source is never
  observable and is not modelled.
* `str.lower` is modelled character-wise (`strLower`) so that it evaluates
  inside the kernel.
-/

abbrev Day := ℤ

abbrev DayKey := ℤ

/-- Error kind of the spec's taxonomy for a row whose date cell does not
parse or whose issue type is not one of the three recognized values. -/
inductive MalformedRecordError : Type where
  | badDate : MalformedRecordError
  | badType : MalformedRecordError
  deriving DecidableEq, Repr

/-- A raw date cell: either a string parsing to day `d` under
`'%d.%m.%y %H:%M'` (already truncated to midnight), or an unparsable one. -/
inductive DateField : Type where
  | valid : Day → DateField
  | invalid : DateField
  deriving DecidableEq, Repr

/-- The `Custom field (Story Points)` cell in the numeric-or-empty form
the Jira acquisition path delivers (`int(... or 0)`) and the spec's
normalizer prescribes ("parses points as a real number").  The CSV path
(`read_rows`/`csv.reader`) instead delivers every cell as TEXT, and the
source never converts it before using it arithmetically; that string-typed
cell and the `TypeError`/`ValueError` crashes it causes are modelled
separately by `RawPoints`, `raw_process_row` and `raw_find_big_points`
below. -/
inductive PointsField : Type where
  | empty : PointsField
  | num : ℚ → PointsField
  deriving DecidableEq, Repr

/-- One data row, restricted to the five columns the engine reads
(the column-index configuration of the source is resolved away). -/
structure Row : Type where
  key : String
  itype : String
  points : PointsField
  resolved : DateField
  board : DateField
  deriving DecidableEq, Repr

/-- Character-wise model of Python's `str.lower()`. -/
def strLower (s : String) : String := ⟨s.data.map Char.toLower⟩

/-- `get_issue_type`: the `Issue Type` cell, lower-cased. -/
def get_issue_type (row : Row) : String := strLower row.itype

/-- `get_issue_key`. -/
def get_issue_key (row : Row) : String := row.key

/-- `get_points`: the raw points cell (no conversion at this stage,
exactly as in the source). -/
def get_points (row : Row) : PointsField := row.points

/-- `day_key`: `strftime('%d.%m.%Y')` is injective on dates, so the key is
modelled by the day number itself. -/
def day_key (d : Day) : DayKey := d

/-- `get_resolved_date`: `strptime(row[RESOLVED_COL], '%d.%m.%y %H:%M')`
rounded down to midnight; a `ValueError` is the malformed-date failure. -/
def get_resolved_date (row : Row) : Except MalformedRecordError Day :=
  match row.resolved with
  | .valid d => Except.ok d
  | .invalid => Except.error .badDate

/-- `get_board_enter_date`: same parse on the `board enter date` cell. -/
def get_board_enter_date (row : Row) : Except MalformedRecordError Day :=
  match row.board with
  | .valid d => Except.ok d
  | .invalid => Except.error .badDate

/-- The three recognized issue types: the keys of the per-day dictionary
built by `new_day_values`. -/
inductive IType : Type where
  | bug : IType
  | task : IType
  | story : IType
  deriving DecidableEq, Repr

/-- Dictionary-key lookup `values[issue_type]`: succeeds exactly for the
keys `'bug'`, `'story'`, `'task'`; anything else raises (`KeyError`). -/
def recognize (s : String) : Option IType :=
  if s = "bug" then some .bug
  else if s = "story" then some .story
  else if s = "task" then some .task
  else none

/-- The `count`/`points` pair a day keeps for one issue type. -/
structure TypeCounters : Type where
  count : ℕ
  points : ℚ
  deriving DecidableEq, Repr

/-- One element of the `board_days` list: `{'issue_key': _, 'days': _}`. -/
structure BoardEntry : Type where
  issue_key : String
  days : ℤ
  deriving DecidableEq, Repr

/-- One element of the `days_per_point` list:
`{'issue_key': _, 'days': _, 'points': _, 'dpt': _}`. -/
structure DptEntry : Type where
  issue_key : String
  days : ℤ
  points : ℚ
  dpt : ℚ
  deriving DecidableEq, Repr

/-- The per-day aggregate built by `new_day_values`.

In the source, `new_day_values` makes the three per-type dictionaries with
`empty_dict.copy()`.  `dict.copy` is a SHALLOW copy, so the three copies
hold the very same two list objects: `values['bug']['board_days']`,
`values['story']['board_days']` and `values['task']['board_days']` are one
list, and likewise for `days_per_point`.  The integer `count` and float
`points` are rebound per type by `+=` and stay separate.  The model
therefore stores one `board_days` and one `days_per_point` per day (shared
by the three types) and separate counters per type; reading the list of any
type reads the shared list, which is exactly what the Python program
observes. -/
structure DayValues : Type where
  bug : TypeCounters
  story : TypeCounters
  task : TypeCounters
  board_days : List BoardEntry
  days_per_point : List DptEntry
  deriving DecidableEq, Repr

/-- `new_day_values`: the empty per-day structure. -/
def new_day_values : DayValues :=
  { bug := ⟨0, 0⟩, story := ⟨0, 0⟩, task := ⟨0, 0⟩
    board_days := [], days_per_point := [] }

/-- Read the counters of a type: `values[issue_type]`. -/
def DayValues.counterOf (v : DayValues) : IType → TypeCounters
  | .bug => v.bug
  | .story => v.story
  | .task => v.task

/-- Rebind the counters of a type (the `+=` on `count` or `points`). -/
def DayValues.setCounter (v : DayValues) : IType → TypeCounters → DayValues
  | .bug, c => { v with bug := c }
  | .story, c => { v with story := c }
  | .task, c => { v with task := c }

/-- `report_values`: Python dict from day key to day values, modelled as an
insertion-ordered association list. -/
abbrev Aggregate := List (DayKey × DayValues)

/-- Dict lookup (first binding wins; a dict has distinct keys anyway). -/
def dictGet (k : DayKey) : Aggregate → Option DayValues
  | [] => none
  | (k', v) :: rest => if k' = k then some v else dictGet k rest

/-- Dict write `d[k] = v`: replace in place, or append a fresh key. -/
def dictInsert (k : DayKey) (v : DayValues) : Aggregate → Aggregate
  | [] => [(k, v)]
  | (k', v') :: rest =>
    if k' = k then (k', v) :: rest else (k', v') :: dictInsert k v rest

/-- Python's banker's rounding of a rational to the nearest integer
(`round(x)`): round half to even. -/
def pyRound (y : ℚ) : ℤ :=
  let f : ℤ := Rat.floor y
  let r : ℚ := y - (f : ℚ)
  if r < 1/2 then f
  else if 1/2 < r then f + 1
  else if Even f then f else f + 1

/-- `round(x, 1)`: Python's rounding to one decimal digit, on the exact
rational value. -/
def round1 (x : ℚ) : ℚ := ((pyRound (10 * x) : ℤ) : ℚ) / 10

/-- `POINTS_THRESHOLD = 5`. -/
def POINTS_THRESHOLD : ℚ := 5

/-- `MOVING_AVG_INTERVAL = 28`. -/
def MOVING_AVG_INTERVAL : ℕ := 28

/-- `process_row`: update `report_values` for one data row, following the
source order of operations: lower-case the type, parse the resolved date
(may fail), `setdefault` the day bucket, look the type up in the bucket
(may fail), bump `count`, parse the board date (may fail), append the
`board_days` entry, and if the points cell is neither the empty string nor
the number `0`, add `float(p)` to `points` and append the `days_per_point`
entry.  Failures abort the whole run in the source, so the model returns
the updated dictionary only on success. -/
def process_row (row : Row) (report_values : Aggregate) :
    Except MalformedRecordError Aggregate := do
  let issue_type := get_issue_type row
  let res_date ← get_resolved_date row
  let key := day_key res_date
  let values := (dictGet key report_values).getD new_day_values
  let t ← match recognize issue_type with
    | some t => Except.ok t
    | none => Except.error .badType
  let values := values.setCounter t
    { values.counterOf t with count := (values.counterOf t).count + 1 }
  let board_date ← get_board_enter_date row
  let days : ℤ := res_date - board_date
  let values := { values with
    board_days := values.board_days ++ [⟨get_issue_key row, days + 1⟩] }
  let values :=
    match get_points row with
    | .empty => values
    | .num q =>
      if q ≠ 0 then
        let values := values.setCounter t
          { values.counterOf t with points := (values.counterOf t).points + q }
        { values with
          days_per_point := values.days_per_point ++
            [⟨get_issue_key row, days + 1, q, round1 (((days + 1 : ℤ) : ℚ) / q)⟩] }
      else values
  pure (dictInsert key values report_values)

/-- `calc_report_values`: fold `process_row` over the data rows
(`for i in range(1, len(rows))`, row `0` being the header). -/
def calc_report_values (rows : List Row) :
    Except MalformedRecordError Aggregate :=
  (rows.drop 1).foldlM (fun acc row => process_row row acc) []

/-- Concrete rows used to evaluate the model at specific inputs. -/
def hdrR : Row := ⟨"Issue key", "Issue Type", .empty, .invalid, .invalid⟩

def rBug0 : Row := ⟨"B-1", "Bug", .empty, .valid 0, .valid 0⟩

def rTask0 : Row := ⟨"T-1", "Task", .empty, .valid 0, .valid 0⟩

def rBugA : Row := ⟨"B-2", "bug", .empty, .valid 5, .valid 4⟩

def rBugB : Row := ⟨"B-3", "bug", .empty, .valid 5, .valid 5⟩

def aggBugTask : Aggregate :=
  (calc_report_values [hdrR, rBug0, rTask0]).toOption.getD []



/-! ### Specification-side total views of a row

These read the parse results off a row; on a well-formed row they agree with
the fallible getters of the source. -/

/-- The resolved day of a row (defaulting on an unparsable cell, which a
well-formed row excludes). -/
def rDay (row : Row) : Day :=
  match row.resolved with
  | .valid d => d
  | .invalid => 0

/-- The board-entry day of a row. -/
def rBoard (row : Row) : Day :=
  match row.board with
  | .valid d => d
  | .invalid => 0

/-- Inclusive cycle time: `(resolved - board_entry).days + 1`. -/
def rDays (row : Row) : ℤ := rDay row - rBoard row + 1

/-- The recognized issue type of a row, if any. -/
def rType (row : Row) : Option IType := recognize (get_issue_type row)

/-- Numeric value of the points cell (`float(p)`, `0` for the empty cell). -/
def rPoints (row : Row) : ℚ :=
  match row.points with
  | .empty => 0
  | .num q => q

/-- The source's estimation test `p != '' and p != 0`. -/
def estimatedRow (row : Row) : Bool :=
  match row.points with
  | .empty => false
  | .num q => decide (q ≠ 0)

/-- The `board_days` entry a row contributes. -/
def rEntry (row : Row) : BoardEntry := ⟨get_issue_key row, rDays row⟩

/-- The `days_per_point` entry an estimated row contributes. -/
def rDpt (row : Row) : DptEntry :=
  ⟨get_issue_key row, rDays row, rPoints row,
    round1 ((rDays row : ℚ) / rPoints row)⟩

/-- A well-formed record: both dates parse and the type is recognized. -/
def WFRow (row : Row) : Prop :=
  row.resolved ≠ .invalid ∧ row.board ≠ .invalid ∧ (rType row).isSome

instance : DecidablePred WFRow := fun row => by
  unfold WFRow; infer_instance

/-- The pure bucket update a (well-formed) row performs: mirrors the
update sequence inside `process_row`. -/
def extend1 (v : DayValues) (row : Row) : DayValues :=
  match rType row with
  | none => v
  | some t =>
    let v := v.setCounter t
      { v.counterOf t with count := (v.counterOf t).count + 1 }
    let v := { v with board_days := v.board_days ++ [rEntry row] }
    match row.points with
    | .empty => v
    | .num q =>
      if q ≠ 0 then
        let v := v.setCounter t
          { v.counterOf t with points := (v.counterOf t).points + q }
        { v with days_per_point := v.days_per_point ++ [rDpt row] }
      else v

/-- One pure fold step of the aggregation. -/
def aggStep (acc : Aggregate) (row : Row) : Aggregate :=
  dictInsert (rDay row)
    (extend1 ((dictGet (rDay row) acc).getD new_day_values) row) acc

/-- Pure fold over data rows (no header handling). -/
def pureFold (acc : Aggregate) (data : List Row) : Aggregate :=
  data.foldl aggStep acc

/-! ### Time series, moving averages, distribution, outliers -/

/-- `daterange(date_from, date_to)`:
`range(int((date_to - date_from).days) + 1)` day offsets; empty when the
count is not positive, exactly like Python's `range`. -/
def daterange (date_from date_to : Day) : List Day :=
  (List.range (date_to - date_from + 1).toNat).map
    (fun n : ℕ => date_from + (n : ℤ))

/-- `serialize_day_values`: the six metric cells of a day row, in the
order bug count, bug points, task count, task points, story count,
story points. -/
def serialize_day_values (val : DayValues) : List ℚ :=
  [(val.bug.count : ℚ), val.bug.points, (val.task.count : ℚ),
    val.task.points, (val.story.count : ℚ), val.story.points]

/-- One emitted time-series row `[key] + serialize_day_values(...)`:
the day key and the six metric values. -/
structure TSRow : Type where
  day : DayKey
  vals : List ℚ
  deriving DecidableEq, Repr

/-- `generate_timeseries`: one row per day of the range, taking the day's
values from the aggregate and defaulting missing days to
`new_day_values()`. -/
def generate_timeseries (report_values : Aggregate)
    (start_date end_date : Day) : List TSRow :=
  (daterange start_date end_date).map (fun d =>
    ⟨day_key d,
      serialize_day_values
        ((dictGet (day_key d) report_values).getD new_day_values)⟩)

/-- Python `range(start, stop, step)` for a positive step. -/
def pyRange (start stop step : ℕ) : List ℕ :=
  (List.range ((stop - start + step - 1) / step)).map
    (fun j => start + step * j)

/-- `calculate_pairwise_relations`: for `i in range(1, len(pairs), 2)`,
`0.0` when `pairs[i-1] == 0`, else `pairs[i] / pairs[i-1]`. -/
def calculate_pairwise_relations (pairs : List ℚ) : List ℚ :=
  (pyRange 1 pairs.length 2).map (fun i =>
    if pairs.getD (i - 1) 0 = 0 then 0
    else pairs.getD i 0 / pairs.getD (i - 1) 0)

/-- One step of a column's sliding window: append the day's value, and once
`rowcount >= MOVING_AVG_INTERVAL` emit `sum(window)/MOVING_AVG_INTERVAL`
and pop the front; during warm-up emit `0` and keep the window growing. -/
def stepCol (rowcount : ℕ) (w : List ℚ) (v : ℚ) : List ℚ × ℚ :=
  let w' := w ++ [v]
  if MOVING_AVG_INTERVAL ≤ rowcount then
    (w'.drop 1, w'.sum / (MOVING_AVG_INTERVAL : ℚ))
  else (w', 0)

/-- A full output row of `generate_rows`:
`d + avg + calculate_pairwise_relations(avg)`. -/
structure GenRow : Type where
  day : DayKey
  vals : List ℚ
  avg : List ℚ
  rel : List ℚ
  deriving DecidableEq, Repr

/-- The `generate_rows` loop: `rowcount` counts emitted rows starting at 1;
for each time-series row the six windows (`for i in range(0, 6)`, value
`d[i + 1]`) are stepped. -/
def genRowsAux (rowcount : ℕ) (windows : List (List ℚ)) :
    List TSRow → List GenRow
  | [] => []
  | d :: rest =>
    let stepped := (List.range 6).map
      (fun i => stepCol rowcount (windows.getD i []) (d.vals.getD i 0))
    ⟨d.day, d.vals, stepped.map Prod.snd,
        calculate_pairwise_relations (stepped.map Prod.snd)⟩ ::
      genRowsAux (rowcount + 1) (stepped.map Prod.fst) rest

/-- `generate_rows`: moving averages and ratio columns over the
gap-filled time series. -/
def generate_rows (report_values : Aggregate)
    (start_date end_date : Day) : List GenRow :=
  genRowsAux 1 [[], [], [], [], [], []]
    (generate_timeseries report_values start_date end_date)

/-- `generate_distribution` inner update `dist[p][i] += 1` preceded by
`dist.setdefault(p, [0, 0, 0])`, walking the dict in insertion order. -/
def bumpDist (p : ℚ) (i : ℕ) :
    List (ℚ × List ℕ) → List (ℚ × List ℕ)
  | [] => [(p, ([0, 0, 0] : List ℕ).set i (([0, 0, 0] : List ℕ).getD i 0 + 1))]
  | (q, c) :: rest =>
    if q = p then (q, c.set i (c.getD i 0 + 1)) :: rest
    else (q, c) :: bumpDist p i rest

/-- The guarded update: only point sums `> 0` are counted. -/
def distAdd (dist : List (ℚ × List ℕ)) (p : ℚ) (i : ℕ) :
    List (ℚ × List ℕ) :=
  if 0 < p then bumpDist p i dist else dist

/-- The body of the `generate_distribution` loop for one day: the types in
the order `['bug', 'task', 'story']` (`enumerate` indices 0, 1, 2). -/
def distStep (dist : List (ℚ × List ℕ)) (kv : DayKey × DayValues) :
    List (ℚ × List ℕ) :=
  let dist := distAdd dist kv.2.bug.points 0
  let dist := distAdd dist kv.2.task.points 1
  distAdd dist kv.2.story.points 2

/-- `generate_distribution`: for every day of the aggregate and each type,
count the day's per-type point sum when it is positive. -/
def generate_distribution (report_values : Aggregate) :
    List (ℚ × List ℕ) :=
  report_values.foldl distStep []

/-- Dict lookup in the distribution (`dist[k]`). -/
def distGet (k : ℚ) : List (ℚ × List ℕ) → Option (List ℕ)
  | [] => none
  | (q, c) :: rest => if q = k then some c else distGet k rest

/-- `serialize_distribution`: `for k in sorted(dist): yield [k] + dist[k]`;
the sort of the distinct keys is modelled with insertion sort. -/
def serialize_distribution (dist : List (ℚ × List ℕ)) :
    List (ℚ × List ℕ) :=
  ((dist.map Prod.fst).insertionSort (· ≤ ·)).map
    (fun k => (k, (distGet k dist).getD []))

/-- One row of the big-points report:
`{'date': day, 'type': type, 'points': p, 'URL': key}`. -/
structure Biggie : Type where
  date : DayKey
  type : String
  points : PointsField
  URL : String
  deriving DecidableEq, Repr

/-- The comparison `p > POINTS_THRESHOLD` on the numeric-or-empty cell.
On the Jira input path the cell is always a number (`int(... or 0)`), an
absent estimate arriving as `0`, so only there is this comparison
evaluated; on the CSV path the cell is a string and the source's
comparison raises `TypeError` instead of returning a truth value — that
behaviour is modelled by `raw_find_big_points` below, not by this
function.  The `empty` case is unreachable on the numeric path and is
mapped to `false` (the value `0 > 5` takes there). -/
def big_enough : PointsField → Bool
  | .empty => false
  | .num q => decide (POINTS_THRESHOLD < q)

/-- The loop body of `find_big_points`: append a biggie when the points
exceed the threshold (parsing the resolved date only then, as the source
does). -/
def bigStep (acc : List Biggie) (row : Row) :
    Except MalformedRecordError (List Biggie) :=
  if big_enough (get_points row) then do
    let rd ← get_resolved_date row
    pure (acc ++
      [⟨day_key rd, get_issue_type row, get_points row,
        get_issue_key row⟩])
  else pure acc

/-- `find_big_points`: scan the data rows (skipping the header) and keep
every row whose points exceed the threshold. -/
def find_big_points (rows : List Row) :
    Except MalformedRecordError (List Biggie) :=
  (rows.drop 1).foldlM bigStep []

/-- Repeated bucket extension: the effect of a day's whole row group. -/
def extendMany (v : DayValues) (rs : List Row) : DayValues :=
  rs.foldl extend1 v

/-- The bucket a day currently holds (the `setdefault` view). -/
def bucketAt (A : Aggregate) (d : Day) : DayValues :=
  (dictGet d A).getD new_day_values

/-- Abstraction of a day bucket with the two lists taken as multisets:
per-type counters, and the contents (not the order) of `board_days` and
`days_per_point`. -/
structure DayAbs : Type where
  bug : TypeCounters
  story : TypeCounters
  task : TypeCounters
  board_days : Multiset BoardEntry
  days_per_point : Multiset DptEntry

def DayValues.abs (v : DayValues) : DayAbs :=
  ⟨v.bug, v.story, v.task, (v.board_days : Multiset BoardEntry),
    (v.days_per_point : Multiset DptEntry)⟩

/-! ### Window invariant of the moving-average loop -/

/-- Column `j` of a time-series segment (`d[j + 1]` of each row). -/
def col (j : ℕ) (ts : List TSRow) : List ℚ :=
  ts.map (fun r => r.vals.getD j 0)

/-- The six windows after `consumed` rows have been processed: each holds
the most recent `min (length consumed) (MOVING_AVG_INTERVAL - 1)` column
values. -/
def mkWindows (consumed : List TSRow) : List (List ℚ) :=
  (List.range 6).map
    (fun j => (col j consumed).drop
      (consumed.length + 1 - MOVING_AVG_INTERVAL))

/-- The point sum of one type viewed through the `enumerate` index. -/
def typePoints (dv : DayValues) : ℕ → ℚ
  | 0 => dv.bug.points
  | 1 => dv.task.points
  | _ => dv.story.points

/-- How many (day, type) buckets of type index `i` have point sum `p`. -/
def bucketCount (A : Aggregate) (i : ℕ) (p : ℚ) : ℕ :=
  A.countP (fun kv => decide (typePoints kv.2 i = p))

/-! ### Witness instantiations at concrete inputs -/

def rBugP : Row := ⟨"B-4", "Bug", .num 3, .valid 5, .valid 4⟩

def rLate : Row := ⟨"L-1", "task", .empty, .valid 0, .valid 3⟩

def dataAB : List Row := [rBugA, rBugB]

def dataBA : List Row := [rBugB, rBugA]

def aggAB : Aggregate := (calc_report_values (hdrR :: dataAB)).toOption.getD []

def aggBA : Aggregate := (calc_report_values (hdrR :: dataBA)).toOption.getD []

def dvBug3 : DayValues := { new_day_values with bug := ⟨1, 3⟩ }

def aggW : Aggregate := [(0, dvBug3)]

def rW : TSRow := ⟨0, serialize_day_values new_day_values⟩

def rBig : Row := ⟨"G-1", "Story", .num 8, .valid 7, .valid 7⟩

def rowsW : List Row := [hdrR, rBig, rBug0]

/-! ### The raw points cell of the CSV path

`read_rows` (`csv.reader`) delivers every cell as a string, and the source
uses the points cell raw: `p != '' and p != 0`, `float(p)`,
`round((board_time.days + 1) / p, 1)` and `p > POINTS_THRESHOLD`.  On a
string, the guard `p != 0` is always `True` (so the text `'0'` counts as
estimated), `float` raises `ValueError` on non-numeric text, the division
raises `TypeError` for every string, and the `>` comparison raises
`TypeError` for every string including the empty one.  The layer below
models these cells and failure paths faithfully; the `Row`-based
definitions above model the numeric (Jira) path, on which the two layers
agree. -/

/-- A raw points cell as one of the two acquisition paths delivers it:
a number (Jira, `int(... or 0)`), the empty text cell, numeric text
(`float` parses it to the given value), or text `float` rejects. -/
inductive RawPoints : Type where
  | num : ℚ → RawPoints
  | emptyStr : RawPoints
  | numStr : ℚ → RawPoints
  | badStr : RawPoints
  deriving DecidableEq, Repr

/-- A data row before any points normalization. -/
structure RawRow : Type where
  key : String
  itype : String
  points : RawPoints
  resolved : DateField
  board : DateField
  deriving DecidableEq, Repr

/-- The uncaught Python exceptions the engine can die with: the two
record-level parse failures the spec folds into `MalformedRecordError`,
plus the exceptions the raw string points cell causes. -/
inductive PyError : Type where
  | recordError : MalformedRecordError → PyError
  | typeErrorDiv : PyError
  | valueErrorFloat : PyError
  | typeErrorCmp : PyError
  deriving DecidableEq, Repr

/-- The guard `p != '' and p != 0`: false for the empty text cell and the
number `0`; true for every other cell — including the TEXT `'0'`, since a
string never equals the integer `0` in Python. -/
def pyNeqGuard : RawPoints → Bool
  | .num q => decide (q ≠ 0)
  | .emptyStr => false
  | .numStr _ => true
  | .badStr => true

/-- `float(p)`: identity on a number, the parsed value on numeric text,
`ValueError` on text `float` rejects (the empty cell would also raise,
but the guard has already excluded it). -/
def pyFloat : RawPoints → Except PyError ℚ
  | .num q => Except.ok q
  | .emptyStr => Except.error .valueErrorFloat
  | .numStr q => Except.ok q
  | .badStr => Except.error .valueErrorFloat

/-- `x / p`: ordinary division by a number; `TypeError` when `p` is any
string (`int / str` is unsupported in Python). -/
def pyDivByPoints (x : ℚ) : RawPoints → Except PyError ℚ
  | .num q => Except.ok (x / q)
  | .emptyStr => Except.error .typeErrorDiv
  | .numStr _ => Except.error .typeErrorDiv
  | .badStr => Except.error .typeErrorDiv

/-- `process_row` on a raw row: identical to `process_row` up to the
points branch, which performs the source's raw-cell operations
(`float(p)` then `... / p`) and so can also die with `ValueError` or
`TypeError` when the cell is text. -/
def raw_process_row (row : RawRow) (report_values : Aggregate) :
    Except PyError Aggregate := do
  let issue_type := strLower row.itype
  let res_date ← match row.resolved with
    | .valid d => Except.ok d
    | .invalid => Except.error (.recordError .badDate)
  let key := day_key res_date
  let values := (dictGet key report_values).getD new_day_values
  let t ← match recognize issue_type with
    | some t => Except.ok t
    | none => Except.error (.recordError .badType)
  let values := values.setCounter t
    { values.counterOf t with count := (values.counterOf t).count + 1 }
  let board_date ← match row.board with
    | .valid d => Except.ok d
    | .invalid => Except.error (.recordError .badDate)
  let days : ℤ := res_date - board_date
  let values := { values with
    board_days := values.board_days ++ [⟨row.key, days + 1⟩] }
  let values ←
    if pyNeqGuard row.points then do
      let f ← pyFloat row.points
      let values := values.setCounter t
        { values.counterOf t with points := (values.counterOf t).points + f }
      let dptv ← pyDivByPoints ((days + 1 : ℤ) : ℚ) row.points
      pure { values with
        days_per_point := values.days_per_point ++
          [⟨row.key, days + 1, f, round1 dptv⟩] }
    else pure values
  pure (dictInsert key values report_values)

/-- `find_big_points` on raw rows: the comparison `p > POINTS_THRESHOLD`
raises `TypeError` on every string cell (even the empty one), so on CSV
input the scan dies at the first data row. -/
def raw_find_big_points (rows : List RawRow) :
    Except PyError (List Biggie) :=
  (rows.drop 1).foldlM
    (fun acc row =>
      match row.points with
      | .num q =>
        if POINTS_THRESHOLD < q then do
          let rd ← match row.resolved with
            | .valid d => Except.ok d
            | .invalid => Except.error (.recordError .badDate)
          pure (acc ++
            [⟨day_key rd, strLower row.itype, PointsField.num q, row.key⟩])
        else pure acc
      | _ => Except.error .typeErrorCmp)
    []

/-- A CSV data row with valid dates and type whose points cell is the
text `'3'`. -/
def rCsvEst : RawRow := ⟨"C-1", "Bug", .numStr 3, .valid 0, .valid 0⟩

/-- A CSV data row whose points cell is the text `'0'`. -/
def rCsvZero : RawRow := ⟨"C-3", "Bug", .numStr 0, .valid 0, .valid 0⟩

/-- A CSV header row (never processed as data). -/
def rCsvHdr : RawRow :=
  ⟨"Issue key", "Issue Type", .emptyStr, .invalid, .invalid⟩

/-- A CSV data row with points text `'8'`, above the threshold. -/
def rCsvBig : RawRow := ⟨"C-2", "Story", .numStr 8, .valid 7, .valid 7⟩

/-- A CSV data row with the empty points cell. -/
def rCsvEmpty : RawRow := ⟨"C-4", "Task", .emptyStr, .valid 1, .valid 1⟩

/-- On a well-formed row, `process_row` succeeds and performs exactly the
pure update `aggStep`. -/
theorem process_row_ok (row : Row) (A : Aggregate) (h : WFRow row) :
    process_row row A = Except.ok (aggStep A row) := by
  obtain ⟨k, it, pts, res, bd⟩ := row
  obtain ⟨h1, h2, h3⟩ := h
  cases res with
  | invalid => simp at h1
  | valid d =>
    cases bd with
    | invalid => simp at h2
    | valid b =>
      simp only [rType, get_issue_type] at h3
      cases ht : recognize (strLower it) with
      | none => rw [ht] at h3; simp at h3
      | some t =>
        cases pts with
        | empty =>
          cases t <;>
            simp [process_row, get_resolved_date, get_board_enter_date,
              get_issue_type, ht, aggStep, extend1, rType, rDay, rBoard,
              rDays, rEntry, get_points, get_issue_key, day_key,
              DayValues.setCounter, DayValues.counterOf, Bind.bind,
              Except.bind, Pure.pure, Except.pure]
        | num q =>
          by_cases hq : q = 0 <;> cases t <;>
            simp [process_row, get_resolved_date, get_board_enter_date,
              get_issue_type, ht, aggStep, extend1, rType, rDay, rBoard,
              rDays, rEntry, rDpt, rPoints, get_points, get_issue_key,
              day_key, hq, DayValues.setCounter, DayValues.counterOf,
              Bind.bind, Except.bind, Pure.pure, Except.pure]

/-- On an all-well-formed data segment the fallible fold computes the pure
fold. -/
theorem calcFrom_eq_pureFold (data : List Row) (acc : Aggregate)
    (h : ∀ r ∈ data, WFRow r) :
    data.foldlM (fun a row => process_row row a) acc
      = Except.ok (pureFold acc data) := by
  induction data generalizing acc with
  | nil => rfl
  | cons r rest ih =>
    have hr : WFRow r := h r (by simp)
    have hrest : ∀ x ∈ rest, WFRow x := fun x hx => h x (by simp [hx])
    simp only [List.foldlM, process_row_ok r acc hr]
    have : (Except.ok (aggStep acc r) : Except MalformedRecordError Aggregate)
        >>= (fun a => List.foldlM (fun a row => process_row row a) a rest)
        = List.foldlM (fun a row => process_row row a) (aggStep acc r) rest := rfl
    rw [this, ih (aggStep acc r) hrest]
    rfl

/-- `calc_report_values` on header plus well-formed data. -/
theorem calc_report_values_ok (hdr : Row) (data : List Row)
    (h : ∀ r ∈ data, WFRow r) :
    calc_report_values (hdr :: data) = Except.ok (pureFold [] data) := by
  simpa [calc_report_values] using calcFrom_eq_pureFold data [] h

/-! ### Field-wise description of the bucket updates -/

theorem counterOf_setCounter (v : DayValues) (t' t : IType) (c : TypeCounters) :
    (v.setCounter t' c).counterOf t = if t' = t then c else v.counterOf t := by
  cases t' <;> cases t <;>
    simp [DayValues.setCounter, DayValues.counterOf]

theorem board_days_setCounter (v : DayValues) (t : IType) (c : TypeCounters) :
    (v.setCounter t c).board_days = v.board_days := by
  cases t <;> simp [DayValues.setCounter]

theorem days_per_point_setCounter (v : DayValues) (t : IType) (c : TypeCounters) :
    (v.setCounter t c).days_per_point = v.days_per_point := by
  cases t <;> simp [DayValues.setCounter]

theorem counterOf_mk (w : DayValues) (bd : List BoardEntry)
    (dp : List DptEntry) (t : IType) :
    (DayValues.mk w.bug w.story w.task bd dp).counterOf t = w.counterOf t := by
  cases t <;> simp [DayValues.counterOf]

theorem extend1_count (v : DayValues) (row : Row) (t : IType) :
    ((extend1 v row).counterOf t).count
      = (v.counterOf t).count + (if rType row = some t then 1 else 0) := by
  unfold extend1
  cases h : rType row with
  | none => simp
  | some t' =>
    cases hp : row.points with
    | empty =>
      by_cases het : t' = t <;>
        simp [counterOf_mk, counterOf_setCounter, het]
    | num q =>
      by_cases hq : q = 0 <;> by_cases het : t' = t <;>
        simp [counterOf_mk, counterOf_setCounter, het, hq]

theorem extend1_points (v : DayValues) (row : Row) (t : IType) :
    ((extend1 v row).counterOf t).points
      = (v.counterOf t).points
        + (if rType row = some t ∧ estimatedRow row then rPoints row else 0) := by
  unfold extend1
  cases h : rType row with
  | none => simp
  | some t' =>
    cases hp : row.points with
    | empty =>
      by_cases het : t' = t <;>
        simp [counterOf_mk, counterOf_setCounter, het, estimatedRow, hp]
    | num q =>
      by_cases hq : q = 0 <;> by_cases het : t' = t <;>
        simp [counterOf_mk, counterOf_setCounter, het, hq, estimatedRow, hp,
          rPoints]

theorem extend1_board_days (v : DayValues) (row : Row)
    (h : (rType row).isSome) :
    (extend1 v row).board_days = v.board_days ++ [rEntry row] := by
  unfold extend1
  cases ht : rType row with
  | none => rw [ht] at h; simp at h
  | some t' =>
    cases hp : row.points with
    | empty => simp [board_days_setCounter]
    | num q =>
      by_cases hq : q = 0 <;> simp [board_days_setCounter, hq]

theorem extend1_days_per_point (v : DayValues) (row : Row)
    (h : (rType row).isSome) :
    (extend1 v row).days_per_point
      = v.days_per_point ++ (if estimatedRow row then [rDpt row] else []) := by
  unfold extend1
  cases ht : rType row with
  | none => rw [ht] at h; simp at h
  | some t' =>
    cases hp : row.points with
    | empty => simp [days_per_point_setCounter, estimatedRow, hp]
    | num q =>
      by_cases hq : q = 0 <;>
        simp [days_per_point_setCounter, estimatedRow, hp, hq]

theorem extendMany_count (rs : List Row) (v : DayValues) (t : IType) :
    ((extendMany v rs).counterOf t).count
      = (v.counterOf t).count
        + rs.countP (fun r => decide (rType r = some t)) := by
  induction rs generalizing v with
  | nil => simp [extendMany]
  | cons r rest ih =>
    have : extendMany v (r :: rest) = extendMany (extend1 v r) rest := rfl
    rw [this, ih, extend1_count, List.countP_cons]
    by_cases h : rType r = some t <;> simp [h] <;> omega

theorem extendMany_points (rs : List Row) (v : DayValues) (t : IType) :
    ((extendMany v rs).counterOf t).points
      = (v.counterOf t).points
        + ((rs.filter
            (fun r => decide (rType r = some t) && estimatedRow r)).map
              rPoints).sum := by
  induction rs generalizing v with
  | nil => simp [extendMany]
  | cons r rest ih =>
    have h0 : extendMany v (r :: rest) = extendMany (extend1 v r) rest := rfl
    rw [h0, ih, extend1_points, List.filter_cons]
    by_cases h : rType r = some t <;> by_cases he : estimatedRow r <;>
      simp [h, he] <;> ring

theorem extendMany_board_days (rs : List Row) (v : DayValues)
    (h : ∀ r ∈ rs, (rType r).isSome) :
    (extendMany v rs).board_days = v.board_days ++ rs.map rEntry := by
  induction rs generalizing v with
  | nil => simp [extendMany]
  | cons r rest ih =>
    have h0 : extendMany v (r :: rest) = extendMany (extend1 v r) rest := rfl
    rw [h0, ih _ (fun x hx => h x (by simp [hx])),
      extend1_board_days v r (h r (by simp))]
    simp

theorem extendMany_days_per_point (rs : List Row) (v : DayValues)
    (h : ∀ r ∈ rs, (rType r).isSome) :
    (extendMany v rs).days_per_point
      = v.days_per_point ++ (rs.filter estimatedRow).map rDpt := by
  induction rs generalizing v with
  | nil => simp [extendMany]
  | cons r rest ih =>
    have h0 : extendMany v (r :: rest) = extendMany (extend1 v r) rest := rfl
    rw [h0, ih _ (fun x hx => h x (by simp [hx])),
      extend1_days_per_point v r (h r (by simp)), List.filter_cons]
    by_cases he : estimatedRow r <;> simp [he]

/-! ### Lookup characterization of the aggregation fold -/

theorem dictGet_dictInsert (k' k : DayKey) (v : DayValues) (A : Aggregate) :
    dictGet k (dictInsert k' v A) = if k' = k then some v else dictGet k A := by
  induction A with
  | nil => simp [dictGet, dictInsert]
  | cons kv rest ih =>
    obtain ⟨k'', v''⟩ := kv
    by_cases h1 : k'' = k'
    · subst h1
      by_cases h2 : k'' = k <;> simp [dictGet, dictInsert, h2]
    · by_cases h2 : k'' = k
      · subst h2
        have hk : k' ≠ k'' := fun hh => h1 hh.symm
        simp [dictGet, dictInsert, h1, hk]
      · simp [dictGet, dictInsert, h1, h2, ih]

/-- What the pure aggregation fold holds at each key: the rows of that day,
folded onto whatever the accumulator already held there. -/
theorem dictGet_pureFold (data : List Row) (acc : Aggregate) (k : DayKey) :
    dictGet k (pureFold acc data)
      = match dictGet k acc, data.filter (fun r => decide (rDay r = k)) with
        | none, [] => none
        | o, l => some (extendMany (o.getD new_day_values) l) := by
  induction data generalizing acc with
  | nil =>
    cases h : dictGet k acc <;> simp [pureFold, h, extendMany]
  | cons r rest ih =>
    have h0 : pureFold acc (r :: rest) = pureFold (aggStep acc r) rest := rfl
    rw [h0, ih (aggStep acc r)]
    have hget : dictGet k (aggStep acc r)
        = if rDay r = k
          then some (extend1 ((dictGet k acc).getD new_day_values) r)
          else dictGet k acc := by
      unfold aggStep
      rw [dictGet_dictInsert]
      by_cases h : rDay r = k <;> simp [h]
    by_cases hrk : rDay r = k
    · subst hrk
      rw [List.filter_cons_of_pos (by simp)]
      rw [hget]
      simp only [if_pos rfl]
      have hext : ∀ (w : DayValues) (l : List Row),
          extendMany (extend1 w r) l = extendMany w (r :: l) := fun w l => rfl
      cases h : dictGet (rDay r) acc <;>
        simp [hext]
    · rw [List.filter_cons_of_neg (by simp [hrk])]
      rw [hget, if_neg hrk]

/-! ### Helpers shared by the claim theorems -/

/-- `recognize` succeeds exactly on the three recognized names. -/
theorem recognize_isSome_iff (s : String) :
    (recognize s).isSome = true
      ↔ s ∈ (["bug", "task", "story"] : List String) := by
  unfold recognize
  by_cases h1 : s = "bug" <;> by_cases h2 : s = "story" <;>
    by_cases h3 : s = "task" <;> simp [h1, h2, h3]

theorem TypeCounters.ext2 (a b : TypeCounters)
    (h1 : a.count = b.count) (h2 : a.points = b.points) : a = b := by
  cases a; cases b; simp_all

/-- Two row groups that are permutations of each other build buckets with
the same abstraction. -/
theorem extendMany_abs_perm (l1 l2 : List Row)
    (h1 : ∀ r ∈ l1, (rType r).isSome) (hp : l1.Perm l2) :
    (extendMany new_day_values l1).abs = (extendMany new_day_values l2).abs := by
  have h2 : ∀ r ∈ l2, (rType r).isSome := fun r hr =>
    h1 r (hp.mem_iff.mpr hr)
  have hcnt : ∀ t : IType,
      (extendMany new_day_values l1).counterOf t
        = (extendMany new_day_values l2).counterOf t := by
    intro t
    apply TypeCounters.ext2
    · rw [extendMany_count, extendMany_count,
        hp.countP_eq (fun r => decide (rType r = some t))]
    · rw [extendMany_points, extendMany_points,
        ((hp.filter _).map rPoints).sum_eq]
  have hbd : (extendMany new_day_values l1).board_days.Perm
      (extendMany new_day_values l2).board_days := by
    rw [extendMany_board_days _ _ h1, extendMany_board_days _ _ h2]
    simpa using hp.map rEntry
  have hdp : (extendMany new_day_values l1).days_per_point.Perm
      (extendMany new_day_values l2).days_per_point := by
    rw [extendMany_days_per_point _ _ h1, extendMany_days_per_point _ _ h2]
    simpa using (hp.filter estimatedRow).map rDpt
  have e1 := hcnt .bug
  have e2 := hcnt .story
  have e3 := hcnt .task
  simp only [DayValues.counterOf] at e1 e2 e3
  simp [DayValues.abs, e1, e2, e3,
    Multiset.coe_eq_coe.mpr hbd, Multiset.coe_eq_coe.mpr hdp]

/-! ### Claim theorems -/

/-- Claim C1 (falsified by the code): the spec demands that each type's
`count` equal the length of that type's `board_days` list, but
`new_day_values` builds the three per-type structures with a SHALLOW
`dict.copy`, so the three types of a day share one `board_days` list.
Feeding one Bug and one Task resolved on the same day gives the bug bucket
`count = 1` while the bug's `board_days` list has 2 entries. -/
theorem c1_count_neq_board_days :
    (dictGet 0 aggBugTask).map (fun v => (v.bug.count, v.board_days.length))
      = some (1, 2) := by decide

/-- Claim C2, counterexample: two well-formed bug rows resolved on day 5,
processed in the two orders, yield aggregates that differ at key 5 (the
shared `board_days` list records the two entries in processing order). -/
theorem c2_order_dependent :
    dictGet 5 ((calc_report_values [hdrR, rBugA, rBugB]).toOption.getD [])
      ≠ dictGet 5 ((calc_report_values [hdrR, rBugB, rBugA]).toOption.getD []) := by
  decide

/-- Claim C2, amended: for well-formed records, permuting the input data
rows yields aggregates that agree at every day key on all per-type counts
and point sums, and whose `board_days` and `days_per_point` lists are equal
as multisets (the lists themselves follow processing order). -/
theorem c2_perm_aggregate_abs (hdr : Row) (d1 d2 : List Row)
    (hw : ∀ r ∈ d1, WFRow r) (hp : d1.Perm d2)
    (A1 A2 : Aggregate)
    (h1 : calc_report_values (hdr :: d1) = Except.ok A1)
    (h2 : calc_report_values (hdr :: d2) = Except.ok A2)
    (k : DayKey) :
    (dictGet k A1).map DayValues.abs = (dictGet k A2).map DayValues.abs := by
  have hw2 : ∀ r ∈ d2, WFRow r := fun r hr => hw r (hp.mem_iff.mpr hr)
  rw [calc_report_values_ok hdr d1 hw] at h1
  rw [calc_report_values_ok hdr d2 hw2] at h2
  obtain rfl : A1 = pureFold [] d1 := by
    injection h1 with h
    exact h.symm
  obtain rfl : A2 = pureFold [] d2 := by
    injection h2 with h
    exact h.symm
  rw [dictGet_pureFold, dictGet_pureFold]
  have hfp : (d1.filter (fun r => decide (rDay r = k))).Perm
      (d2.filter (fun r => decide (rDay r = k))) := hp.filter _
  have htyp : ∀ r ∈ d1.filter (fun r => decide (rDay r = k)),
      (rType r).isSome := fun r hr =>
    (hw r (List.mem_of_mem_filter hr)).2.2
  cases hl1 : d1.filter (fun r => decide (rDay r = k)) with
  | nil =>
    have hl2 : d2.filter (fun r => decide (rDay r = k)) = [] := by
      rw [hl1] at hfp
      exact hfp.symm.eq_nil
    rw [hl2]
  | cons a l =>
    have hne2 : d2.filter (fun r => decide (rDay r = k)) ≠ [] := by
      intro hbad
      rw [hl1, hbad] at hfp
      exact absurd hfp.symm (by simp)
    cases hl2 : d2.filter (fun r => decide (rDay r = k)) with
    | nil => exact absurd hl2 hne2
    | cons b m =>
      have habs := extendMany_abs_perm (a :: l) (b :: m)
        (by rw [← hl1]; exact htyp) (by rw [← hl1, ← hl2]; exact hfp)
      simp only [dictGet, Option.getD]
      exact congrArg some habs

/-- Claim C5: for a well-formed row the count is bumped and a cycle-time
entry appended unconditionally; when the points cell is the empty string or
the number `0` the point sum is unchanged and no `days_per_point` entry is
appended; when the points value is positive it is added to the point sum
and a `days_per_point` entry with ratio `round(days / points, 1)` is
appended. -/
theorem c5_points_handling (row : Row) (A : Aggregate) (t : IType)
    (d b : Day)
    (hres : row.resolved = .valid d) (hb : row.board = .valid b)
    (ht : rType row = some t) :
    process_row row A
      = Except.ok (dictInsert d (extend1 (bucketAt A d) row) A)
    ∧ ((extend1 (bucketAt A d) row).counterOf t).count
        = ((bucketAt A d).counterOf t).count + 1
    ∧ (extend1 (bucketAt A d) row).board_days
        = (bucketAt A d).board_days ++ [⟨row.key, d - b + 1⟩]
    ∧ (row.points = .empty ∨ row.points = .num 0 →
        ((extend1 (bucketAt A d) row).counterOf t).points
            = ((bucketAt A d).counterOf t).points
          ∧ (extend1 (bucketAt A d) row).days_per_point
            = (bucketAt A d).days_per_point)
    ∧ (∀ q : ℚ, row.points = .num q → 0 < q →
        ((extend1 (bucketAt A d) row).counterOf t).points
            = ((bucketAt A d).counterOf t).points + q
          ∧ (extend1 (bucketAt A d) row).days_per_point
            = (bucketAt A d).days_per_point
              ++ [⟨row.key, d - b + 1, q,
                    round1 (((d - b + 1 : ℤ) : ℚ) / q)⟩]) := by
  have hwf : WFRow row := ⟨by rw [hres]; simp, by rw [hb]; simp, by rw [ht]; rfl⟩
  have hday : rDay row = d := by simp [rDay, hres]
  have hdays : rDays row = d - b + 1 := by simp [rDays, rDay, rBoard, hres, hb]
  refine ⟨?_, ?_, ?_, ?_, ?_⟩
  · rw [process_row_ok row A hwf]
    unfold aggStep bucketAt
    rw [hday]
  · rw [extend1_count, ht]
    simp
  · rw [extend1_board_days _ _ (by rw [ht]; rfl)]
    simp [rEntry, hdays, get_issue_key]
  · intro hcase
    constructor
    · rw [extend1_points, ht]
      rcases hcase with h0 | h0 <;> simp [estimatedRow, h0]
    · rw [extend1_days_per_point _ _ (by rw [ht]; rfl)]
      rcases hcase with h0 | h0 <;> simp [estimatedRow, h0]
  · intro q hq hqpos
    have hest : estimatedRow row = true := by
      simp [estimatedRow, hq]
      exact ne_of_gt hqpos
    constructor
    · rw [extend1_points, ht]
      simp [hest, rPoints, hq]
    · rw [extend1_days_per_point _ _ (by rw [ht]; rfl)]
      simp [hest, rDpt, rPoints, hq, hdays, get_issue_key]

/-- Claim C9: the cycle-time entry recorded for a row carries
`days = (resolved - board_entry) + 1` with no clamping: at least 1 when the
board-entry day is not after the resolved day, and a zero or negative value
recorded as-is (the row is still processed without error) otherwise. -/
theorem c9_days_no_clamp (row : Row) (A : Aggregate) (d b : ℤ)
    (hres : row.resolved = .valid d) (hb : row.board = .valid b)
    (ht : (rType row).isSome) :
    process_row row A
      = Except.ok (dictInsert d (extend1 (bucketAt A d) row) A)
    ∧ (extend1 (bucketAt A d) row).board_days
        = (bucketAt A d).board_days ++ [⟨row.key, d - b + 1⟩]
    ∧ (b ≤ d → 1 ≤ d - b + 1)
    ∧ (d < b → d - b + 1 ≤ 0) := by
  have hwf : WFRow row := ⟨by rw [hres]; simp, by rw [hb]; simp, ht⟩
  have hday : rDay row = d := by simp [rDay, hres]
  have hdays : rDays row = d - b + 1 := by simp [rDays, rDay, rBoard, hres, hb]
  refine ⟨?_, ?_, ?_, ?_⟩
  · rw [process_row_ok row A hwf]
    unfold aggStep bucketAt
    rw [hday]
  · rw [extend1_board_days _ _ ht]
    simp [rEntry, hdays, get_issue_key]
  · intro h
    omega
  · intro h
    omega

/-- Claim C10: processing a row fails (with a `MalformedRecordError`, the
only error kind of the model) exactly when one of the two date cells does
not parse under `'%d.%m.%y %H:%M'` or the lower-cased issue type is not one
of `bug`, `task`, `story`; a row passing both checks is processed without
raising. -/
theorem c10_failure_iff (row : Row) (A : Aggregate) :
    (process_row row A).isOk = true
      ↔ (row.resolved ≠ DateField.invalid ∧ row.board ≠ DateField.invalid
          ∧ get_issue_type row ∈ (["bug", "task", "story"] : List String)) := by
  obtain ⟨k, it, pts, res, bd⟩ := row
  rw [← recognize_isSome_iff]
  simp only [get_issue_type]
  cases res with
  | invalid =>
    simp [process_row, get_resolved_date, Except.isOk, Except.toBool,
      Bind.bind, Except.bind]
  | valid d =>
    cases hrec : recognize (strLower it) with
    | none =>
      simp [process_row, get_resolved_date, get_issue_type, hrec,
        Except.isOk, Except.toBool, Bind.bind, Except.bind]
    | some t =>
      cases bd with
      | invalid =>
        simp [process_row, get_resolved_date, get_board_enter_date,
          get_issue_type, hrec, Except.isOk, Except.toBool, Bind.bind,
          Except.bind]
      | valid b =>
        simp [process_row, get_resolved_date, get_board_enter_date,
          get_issue_type, hrec, Except.isOk, Except.toBool, Bind.bind,
          Except.bind, Pure.pure, Except.pure]

theorem bigStep_ok (acc : List Biggie) (row : Row) (d : ℤ)
    (hres : row.resolved = .valid d) :
    bigStep acc row
      = Except.ok (if big_enough (get_points row)
          then acc ++ [⟨day_key d, get_issue_type row, get_points row,
            get_issue_key row⟩]
          else acc) := by
  unfold bigStep
  by_cases hbig : big_enough (get_points row) <;>
    simp [hbig, get_resolved_date, hres, Bind.bind, Except.bind,
      Pure.pure, Except.pure]

theorem find_big_aux (data : List Row) (acc : List Biggie)
    (h : ∀ r ∈ data, r.resolved ≠ DateField.invalid) :
    data.foldlM bigStep acc
      = Except.ok (acc ++
          ((data.filter (fun r => big_enough (get_points r))).map
            (fun r => ⟨day_key (rDay r), get_issue_type r, get_points r,
              get_issue_key r⟩))) := by
  induction data generalizing acc with
  | nil => simp [List.foldlM, Pure.pure, Except.pure]
  | cons r rest ih =>
    have hr := h r (by simp)
    have hrest : ∀ x ∈ rest, x.resolved ≠ DateField.invalid :=
      fun x hx => h x (by simp [hx])
    cases hres : r.resolved with
    | invalid => exact absurd hres hr
    | valid d =>
      have hday : rDay r = d := by simp [rDay, hres]
      simp only [List.foldlM, bigStep_ok acc r d hres]
      have hbind : ∀ (a : List Biggie),
          (Except.ok a : Except MalformedRecordError (List Biggie))
            >>= (fun a2 => List.foldlM bigStep a2 rest)
          = List.foldlM bigStep a rest := fun a => rfl
      by_cases hbig : big_enough (get_points r)
      · rw [if_pos hbig, hbind, ih _ hrest,
          List.filter_cons_of_pos (by simpa using hbig)]
        simp [hday]
      · rw [if_neg hbig, hbind, ih _ hrest,
          List.filter_cons_of_neg (by simpa using hbig)]

/-- Claim C8: on rows whose resolved dates parse, `find_big_points`
returns exactly the data rows whose points exceed the threshold `5`, in
input order, each emitted as its resolved day, lower-cased issue type,
points and issue key; the scan reads the raw rows directly (its definition
never consults an `Aggregate`). -/
theorem c8_big_points (rows : List Row)
    (h : ∀ r ∈ rows.drop 1, r.resolved ≠ DateField.invalid) :
    find_big_points rows
      = Except.ok
          (((rows.drop 1).filter
              (fun r => big_enough (get_points r))).map
            (fun r => ⟨day_key (rDay r), get_issue_type r, get_points r,
              get_issue_key r⟩)) := by
  unfold find_big_points
  rw [find_big_aux (rows.drop 1) [] h]
  simp

/-- Claim C3: over `[start, end]` the time series has one row per calendar
day, `(end - start).days + 1` of them when the bounds are ordered, in
strictly ascending day order; a day absent from the aggregate yields the
six all-zero metric cells; reversed bounds yield the empty series. -/
theorem c3_timeseries_gap_filling (A : Aggregate) (s e : ℤ) :
    ((generate_timeseries A s e).map TSRow.day
        = (List.range (e - s + 1).toNat).map (fun n : ℕ => s + (n : ℤ)))
    ∧ (s ≤ e → (generate_timeseries A s e).length = (e - s).toNat + 1)
    ∧ ((generate_timeseries A s e).map TSRow.day).Pairwise (· < ·)
    ∧ (∀ r ∈ generate_timeseries A s e,
        dictGet r.day A = none → r.vals = [0, 0, 0, 0, 0, 0])
    ∧ (e < s → generate_timeseries A s e = []) := by
  have hmap : (generate_timeseries A s e).map TSRow.day
      = (List.range (e - s + 1).toNat).map (fun n : ℕ => s + (n : ℤ)) := by
    simp [generate_timeseries, daterange, day_key, List.map_map,
      Function.comp]
  refine ⟨hmap, ?_, ?_, ?_, ?_⟩
  · intro hse
    have hlen : (generate_timeseries A s e).length = (e - s + 1).toNat := by
      unfold generate_timeseries daterange
      rw [List.length_map, List.length_map, List.length_range]
    rw [hlen]
    omega
  · rw [hmap, List.pairwise_map]
    refine (List.pairwise_lt_range _).imp ?_
    intro a b hab
    exact add_lt_add_left (by exact_mod_cast hab) s
  · intro r hr hnone
    obtain ⟨d, _, rfl⟩ := List.mem_map.mp hr
    simp only [day_key] at hnone
    simp [serialize_day_values, new_day_values, day_key, hnone]
  · intro hes
    have h0 : (e - s + 1).toNat = 0 := by omega
    simp [generate_timeseries, daterange, h0]

/-- Claim C6: on a 6-element averages vector the pairwise-relation step
produces exactly the three ratios (bug, task, story), each `0.0` when the
corresponding averaged count is `0` and `avg_points / avg_count` otherwise;
the division is never taken when the denominator is zero. -/
theorem c6_pairwise_relations (p : List ℚ) (h : p.length = 6) :
    calculate_pairwise_relations p
      = [if p.getD 0 0 = 0 then 0 else p.getD 1 0 / p.getD 0 0,
         if p.getD 2 0 = 0 then 0 else p.getD 3 0 / p.getD 2 0,
         if p.getD 4 0 = 0 then 0 else p.getD 5 0 / p.getD 4 0] := by
  unfold calculate_pairwise_relations
  rw [h]
  have hpr : pyRange 1 6 2 = [1, 3, 5] := by decide
  rw [hpr]
  norm_num

theorem getD_range_map {α : Type} (f : ℕ → α) (n j : ℕ) (d : α)
    (h : j < n) :
    ((List.range n).map f).getD j d = f j := by
  rw [List.getD_eq_getElem?_getD, List.getElem?_map, List.getElem?_range h]
  rfl

theorem mkWindows_nil : mkWindows [] = [[], [], [], [], [], []] := rfl

theorem genRowsAux_length (rowcount : ℕ) (windows : List (List ℚ))
    (ts : List TSRow) :
    (genRowsAux rowcount windows ts).length = ts.length := by
  induction ts generalizing rowcount windows with
  | nil => rfl
  | cons d rest ih => simp [genRowsAux, ih]

theorem mkWindows_getD (consumed : List TSRow) (j : ℕ) (hj : j < 6) :
    (mkWindows consumed).getD j []
      = (col j consumed).drop
          (consumed.length + 1 - MOVING_AVG_INTERVAL) := by
  unfold mkWindows
  exact getD_range_map _ 6 j [] hj

theorem col_append_one (j : ℕ) (consumed : List TSRow) (d : TSRow) :
    col j (consumed ++ [d]) = col j consumed ++ [d.vals.getD j 0] := by
  simp [col]

theorem col_length (j : ℕ) (ts : List TSRow) :
    (col j ts).length = ts.length := by
  simp [col]

/-- The first component of a window step: the next window. -/
theorem stepCol_fst (X : List ℚ) (v : ℚ) (c : ℕ) (hX : X.length = c) :
    (stepCol (c + 1) (X.drop (c + 1 - 28)) v).1
      = (X ++ [v]).drop (c + 2 - 28) := by
  unfold stepCol MOVING_AVG_INTERVAL
  by_cases hc : 28 ≤ c + 1
  · rw [if_pos hc]
    dsimp only
    have e2 : (X ++ [v]).drop (c + 2 - 28)
        = X.drop (c + 2 - 28) ++ [v] := by
      rw [List.drop_append_eq_append_drop]
      have g3 : c + 2 - 28 - X.length = 0 := by omega
      rw [g3, List.drop_zero]
    rw [e2, List.drop_append_eq_append_drop, List.drop_drop]
    have g1 : c + 1 - 28 + 1 = c + 2 - 28 := by omega
    have g2 : 1 - (X.drop (c + 1 - 28)).length = 0 := by
      rw [List.length_drop]
      omega
    rw [g1, g2, List.drop_zero]
  · rw [if_neg hc]
    dsimp only
    have g1 : c + 1 - 28 = 0 := by omega
    have g2 : c + 2 - 28 = 0 := by omega
    rw [g1, g2, List.drop_zero, List.drop_zero]

/-- The second component of a window step: the emitted average cell. -/
theorem stepCol_snd (X : List ℚ) (v : ℚ) (c : ℕ) (hX : X.length = c) :
    (stepCol (c + 1) (X.drop (c + 1 - 28)) v).2
      = if c + 1 < 28 then 0
        else ((X ++ [v]).drop (c + 1 - 28)).sum / 28 := by
  unfold stepCol MOVING_AVG_INTERVAL
  by_cases hc : 28 ≤ c + 1
  · rw [if_pos hc, if_neg (by omega)]
    dsimp only
    congr 1
    rw [List.drop_append_eq_append_drop]
    have g : c + 1 - 28 - X.length = 0 := by omega
    rw [g, List.drop_zero]
  · rw [if_neg hc, if_pos (by omega)]

/-- Stepping all six windows advances the window invariant by one row. -/
theorem stepped_windows_fst (consumed : List TSRow) (d : TSRow) :
    ((List.range 6).map
      (fun i => stepCol (consumed.length + 1)
        ((mkWindows consumed).getD i []) (d.vals.getD i 0))).map Prod.fst
    = mkWindows (consumed ++ [d]) := by
  unfold mkWindows MOVING_AVG_INTERVAL
  rw [List.map_map]
  refine List.map_congr_left ?_
  intro j hjm
  have hj : j < 6 := List.mem_range.mp hjm
  simp only [Function.comp_apply, getD_range_map _ 6 j ([] : List ℚ) hj]
  rw [stepCol_fst (col j consumed) (d.vals.getD j 0) consumed.length
    (col_length j consumed)]
  rw [col_append_one]
  congr 1
  simp

/-- Each produced row's average cells, described against the whole series:
zero during warm-up, else the trailing-window mean ending at the row. -/
theorem genRowsAux_avg (ts : List TSRow) (consumed : List TSRow)
    (i j : ℕ) (hi : i < ts.length) (hj : j < 6) :
    ((genRowsAux (consumed.length + 1) (mkWindows consumed) ts).getD i
        ⟨0, [], [], []⟩).avg.getD j 0
      = if consumed.length + i + 1 < 28 then 0
        else (((col j (consumed ++ ts)).take
              (consumed.length + i + 1)).drop
            (consumed.length + i + 1 - 28)).sum / 28 := by
  induction ts generalizing consumed i with
  | nil => exact absurd hi (by simp)
  | cons d rest ih =>
    cases i with
    | zero =>
      simp only [genRowsAux, List.getD_cons_zero]
      rw [List.map_map]
      rw [getD_range_map _ 6 j (0 : ℚ) hj]
      simp only [Function.comp_apply]
      rw [mkWindows_getD consumed j hj]
      unfold MOVING_AVG_INTERVAL
      rw [stepCol_snd (col j consumed) (d.vals.getD j 0) consumed.length
        (col_length j consumed)]
      have htake : (col j (consumed ++ d :: rest)).take
          (consumed.length + 0 + 1)
          = col j consumed ++ [d.vals.getD j 0] := by
        have hsplit : col j (consumed ++ d :: rest)
            = col j consumed ++ (d.vals.getD j 0 :: col j rest) := by
          simp [col]
        rw [hsplit]
        have hlen : consumed.length + 0 + 1 = (col j consumed).length + 1 := by
          rw [col_length]
        rw [hlen, List.take_append]
        simp
      rw [htake]
    | succ i2 =>
      simp only [genRowsAux, List.getD_cons_succ]
      rw [stepped_windows_fst consumed d]
      have hL : consumed.length + 1 = (consumed ++ [d]).length := by simp
      rw [hL]
      rw [ih (consumed ++ [d]) i2 (by simpa using hi) ]
      have h1 : (consumed ++ [d]).length + i2 + 1
          = consumed.length + (i2 + 1) + 1 := by
        simp
        omega
      have h2 : (consumed ++ [d]) ++ rest = consumed ++ (d :: rest) := by
        simp
      rw [h1, h2]

/-- Claim C4: in the rows of `generate_rows` (index `i` here 0-based, so
row `i` is the `(i+1)`-st), every moving-average cell is `0` while
`i + 1 < 28`, and from the 28th row on it is the arithmetic mean of the
last 28 values of the corresponding raw metric column, the current row
included. -/
theorem c4_moving_average (A : Aggregate) (s e : ℤ) (i j : ℕ)
    (hi : i < (generate_rows A s e).length) (hj : j < 6) :
    ((generate_rows A s e).getD i ⟨0, [], [], []⟩).avg.getD j 0
      = if i + 1 < MOVING_AVG_INTERVAL then 0
        else ((((generate_timeseries A s e).take (i + 1)).map
              (fun r => r.vals.getD j 0)).drop
            (i + 1 - MOVING_AVG_INTERVAL)).sum
          / (MOVING_AVG_INTERVAL : ℚ) := by
  unfold generate_rows MOVING_AVG_INTERVAL
  have hlen : i < (generate_timeseries A s e).length := by
    rw [← genRowsAux_length 1 [[], [], [], [], [], []]
      (generate_timeseries A s e)]
    exact hi
  have h0 : (1 : ℕ) = ([] : List TSRow).length + 1 := rfl
  rw [h0, ← mkWindows_nil]
  rw [genRowsAux_avg (generate_timeseries A s e) [] i j hlen hj]
  simp only [List.length_nil, List.nil_append, Nat.zero_add]
  rw [List.map_take]
  rfl

/-! ### Distribution lemmas -/

theorem distGet_bumpDist (q : ℚ) (i : ℕ)
    (dist : List (ℚ × List ℕ)) (p : ℚ) :
    distGet p (bumpDist q i dist)
      = if q = p
        then some (((distGet p dist).getD [0, 0, 0]).set i
            (((distGet p dist).getD [0, 0, 0]).getD i 0 + 1))
        else distGet p dist := by
  induction dist with
  | nil =>
    by_cases h : q = p <;> simp [bumpDist, distGet, h]
  | cons e rest ih =>
    obtain ⟨q', c⟩ := e
    by_cases h1 : q' = q
    · subst h1
      by_cases h2 : q' = p
      · subst h2
        simp [bumpDist, distGet]
      · simp [bumpDist, distGet, h2]
    · by_cases h2 : q' = p
      · subst h2
        have hqp : ¬q = q' := fun hh => h1 hh.symm
        simp [bumpDist, distGet, h1, hqp]
      · simp [bumpDist, distGet, h1, h2, ih]

theorem distGet_distAdd (dist : List (ℚ × List ℕ)) (q : ℚ) (i : ℕ)
    (p : ℚ) (hp : 0 < p) :
    distGet p (distAdd dist q i)
      = if q = p
        then some (((distGet p dist).getD [0, 0, 0]).set i
            (((distGet p dist).getD [0, 0, 0]).getD i 0 + 1))
        else distGet p dist := by
  unfold distAdd
  by_cases h0 : 0 < q
  · rw [if_pos h0, distGet_bumpDist]
  · rw [if_neg h0]
    have hne : ¬q = p := by
      intro hqp
      rw [hqp] at h0
      exact h0 hp
    rw [if_neg hne]

theorem keys_bumpDist (q : ℚ) (i : ℕ) (dist : List (ℚ × List ℕ)) :
    (bumpDist q i dist).map Prod.fst
      = if q ∈ dist.map Prod.fst then dist.map Prod.fst
        else dist.map Prod.fst ++ [q] := by
  induction dist with
  | nil => simp [bumpDist]
  | cons e rest ih =>
    obtain ⟨q', c⟩ := e
    by_cases h1 : q' = q
    · subst h1
      simp [bumpDist]
    · have hne : ¬q = q' := fun hh => h1 hh.symm
      by_cases h2 : q ∈ rest.map Prod.fst <;>
        simp [bumpDist, h1, h2, ih, hne]

theorem keys_distAdd_sub (dist : List (ℚ × List ℕ)) (q : ℚ) (i : ℕ)
    (p : ℚ) (h : p ∈ (distAdd dist q i).map Prod.fst) :
    p ∈ dist.map Prod.fst ∨ (p = q ∧ 0 < q) := by
  unfold distAdd at h
  by_cases h0 : 0 < q
  · rw [if_pos h0, keys_bumpDist] at h
    by_cases hq : q ∈ dist.map Prod.fst
    · rw [if_pos hq] at h
      exact Or.inl h
    · rw [if_neg hq] at h
      rcases List.mem_append.mp h with h2 | h2
      · exact Or.inl h2
      · exact Or.inr ⟨by simpa using h2, h0⟩
  · rw [if_neg h0] at h
    exact Or.inl h

theorem keys_nodup_distAdd (dist : List (ℚ × List ℕ)) (q : ℚ) (i : ℕ)
    (h : (dist.map Prod.fst).Nodup) :
    ((distAdd dist q i).map Prod.fst).Nodup := by
  unfold distAdd
  by_cases h0 : 0 < q
  · rw [if_pos h0, keys_bumpDist]
    by_cases hq : q ∈ dist.map Prod.fst
    · rw [if_pos hq]
      exact h
    · rw [if_neg hq]
      simp [List.nodup_append, h, hq]
  · rw [if_neg h0]
    exact h

theorem keys_nodup_gen (A : Aggregate) :
    ((generate_distribution A).map Prod.fst).Nodup := by
  unfold generate_distribution
  suffices hgen : ∀ dist0 : List (ℚ × List ℕ),
      (dist0.map Prod.fst).Nodup →
        ((A.foldl distStep dist0).map Prod.fst).Nodup by
    exact hgen [] (by simp)
  induction A with
  | nil => exact fun dist0 h => h
  | cons kv rest ih =>
    intro dist0 h
    exact ih (distStep dist0 kv)
      (keys_nodup_distAdd _ _ _ (keys_nodup_distAdd _ _ _
        (keys_nodup_distAdd _ _ _ h)))

theorem keys_gen_origin (A : Aggregate) (p : ℚ)
    (hmem : p ∈ (generate_distribution A).map Prod.fst) :
    0 < p ∧ ∃ kv ∈ A, kv.2.bug.points = p ∨ kv.2.task.points = p
      ∨ kv.2.story.points = p := by
  unfold generate_distribution at hmem
  suffices hgen : ∀ dist0 : List (ℚ × List ℕ),
      p ∈ ((A.foldl distStep dist0).map Prod.fst) →
        p ∈ dist0.map Prod.fst
        ∨ (0 < p ∧ ∃ kv ∈ A, kv.2.bug.points = p ∨ kv.2.task.points = p
            ∨ kv.2.story.points = p) by
    rcases hgen [] hmem with h | h
    · simp at h
    · exact h
  clear hmem
  induction A with
  | nil => exact fun dist0 h => Or.inl h
  | cons kv rest ih =>
    intro dist0 h
    rcases ih (distStep dist0 kv) h with h2 | h2
    · unfold distStep at h2
      rcases keys_distAdd_sub _ _ _ _ h2 with h3 | h3
      · rcases keys_distAdd_sub _ _ _ _ h3 with h4 | h4
        · rcases keys_distAdd_sub _ _ _ _ h4 with h5 | h5
          · exact Or.inl h5
          · exact Or.inr ⟨h5.1 ▸ h5.2,
              kv, by simp, Or.inl h5.1.symm⟩
        · exact Or.inr ⟨h4.1 ▸ h4.2, kv, by simp, Or.inr (Or.inl h4.1.symm)⟩
      · exact Or.inr ⟨h3.1 ▸ h3.2, kv, by simp,
          Or.inr (Or.inr h3.1.symm)⟩
    · obtain ⟨hp, kv2, hkv2, hor⟩ := h2
      exact Or.inr ⟨hp, kv2, by simp [hkv2], hor⟩

/-- The distribution's value at a positive key, in terms of how many
buckets of each type have that point sum. -/
theorem distGet_gen (A : Aggregate) (p : ℚ) (hp : 0 < p) :
    distGet p (generate_distribution A)
      = if bucketCount A 0 p = 0 ∧ bucketCount A 1 p = 0
            ∧ bucketCount A 2 p = 0
        then none
        else some [bucketCount A 0 p, bucketCount A 1 p,
            bucketCount A 2 p] := by
  induction A using List.reverseRecOn with
  | nil => simp [generate_distribution, distGet, bucketCount]
  | append_singleton rest kv ih =>
    have hfold : generate_distribution (rest ++ [kv])
        = distStep (generate_distribution rest) kv := by
      simp [generate_distribution, List.foldl_append]
    have hbc : ∀ i : ℕ, bucketCount (rest ++ [kv]) i p
        = bucketCount rest i p
          + (if typePoints kv.2 i = p then 1 else 0) := by
      intro i
      simp [bucketCount, List.countP_append, List.countP_cons]
    rw [hfold]
    unfold distStep
    simp only [distGet_distAdd, hp, ih]
    rw [hbc 0, hbc 1, hbc 2]
    by_cases hb : kv.2.bug.points = p <;>
      by_cases ht2 : kv.2.task.points = p <;>
        by_cases hs : kv.2.story.points = p <;>
          by_cases hz : bucketCount rest 0 p = 0
              ∧ bucketCount rest 1 p = 0 ∧ bucketCount rest 2 p = 0 <;>
            simp [typePoints, hb, ht2, hs, hz]

theorem distGet_eq_none_iff (k : ℚ) (d : List (ℚ × List ℕ)) :
    distGet k d = none ↔ k ∉ d.map Prod.fst := by
  induction d with
  | nil => simp [distGet]
  | cons e rest ih =>
    obtain ⟨q, c⟩ := e
    by_cases h : q = k
    · subst h
      simp [distGet]
    · have hne : ¬k = q := fun hh => h hh.symm
      simp [distGet, h, hne, ih]

/-- Claim C7: the serialized point distribution is strictly ascending with
no duplicate keys; every key is a positive per-(day, type) daily point sum
of the aggregate; and each row's three counters say how many buckets of
each type have exactly that point sum (one occurrence per bucket). -/
theorem c7_distribution (A : Aggregate) :
    ((serialize_distribution (generate_distribution A)).map
        Prod.fst).Pairwise (· < ·)
    ∧ ∀ r ∈ serialize_distribution (generate_distribution A),
        0 < r.1
        ∧ (∃ kv ∈ A, kv.2.bug.points = r.1 ∨ kv.2.task.points = r.1
            ∨ kv.2.story.points = r.1)
        ∧ r.2 = [bucketCount A 0 r.1, bucketCount A 1 r.1,
              bucketCount A 2 r.1] := by
  constructor
  · have hkeys : (serialize_distribution (generate_distribution A)).map
        Prod.fst
        = ((generate_distribution A).map Prod.fst).insertionSort
            (· ≤ ·) := by
      unfold serialize_distribution
      rw [List.map_map]
      have hcomp : (Prod.fst ∘ fun k : ℚ =>
          (k, (distGet k (generate_distribution A)).getD ([] : List ℕ)))
          = id := rfl
      rw [hcomp, List.map_id]
    rw [hkeys]
    have hsorted : List.Sorted (· ≤ ·)
        (((generate_distribution A).map Prod.fst).insertionSort (· ≤ ·)) :=
      List.sorted_insertionSort _ _
    have hnodup : (((generate_distribution A).map Prod.fst).insertionSort
        (· ≤ ·)).Nodup :=
      ((List.perm_insertionSort _ _).nodup_iff).mpr (keys_nodup_gen A)
    exact (hsorted.and hnodup).imp
      (fun hab => lt_of_le_of_ne hab.1 hab.2)
  · intro r hr
    unfold serialize_distribution at hr
    obtain ⟨k, hk, rfl⟩ := List.mem_map.mp hr
    have hkmem : k ∈ (generate_distribution A).map Prod.fst :=
      (List.mem_insertionSort _ ).mp hk
    obtain ⟨hp, horigin⟩ := keys_gen_origin A k hkmem
    refine ⟨hp, horigin, ?_⟩
    have hnn : distGet k (generate_distribution A) ≠ none := by
      intro h0
      rw [distGet_eq_none_iff] at h0
      exact h0 hkmem
    have hsome := distGet_gen A k hp
    by_cases hz : bucketCount A 0 k = 0 ∧ bucketCount A 1 k = 0
        ∧ bucketCount A 2 k = 0
    · rw [if_pos hz] at hsome
      exact absurd hsome hnn
    · rw [if_neg hz] at hsome
      simp [hsome]

theorem c2_perm_aggregate_abs_witness :
    (dictGet 5 aggAB).map DayValues.abs
      = (dictGet 5 aggBA).map DayValues.abs :=
  c2_perm_aggregate_abs hdrR dataAB dataBA (by decide)
    (List.Perm.swap rBugB rBugA []) aggAB aggBA rfl rfl 5

theorem c3_timeseries_gap_filling_witness :
    (generate_timeseries [] 0 2).length = ((2 : ℤ) - 0).toNat + 1
    ∧ rW.vals = [0, 0, 0, 0, 0, 0]
    ∧ generate_timeseries [] 2 0 = [] :=
  ⟨(c3_timeseries_gap_filling [] 0 2).2.1 (by decide),
   (c3_timeseries_gap_filling [] 0 0).2.2.2.1 rW (by decide) (by decide),
   (c3_timeseries_gap_filling [] 2 0).2.2.2.2 (by decide)⟩

theorem c4_moving_average_witness :
    ((generate_rows [] 0 1).getD 0 ⟨0, [], [], []⟩).avg.getD 0 0 = 0 := by
  rw [c4_moving_average [] 0 1 0 0 (by decide) (by decide)]
  rfl

theorem c5_points_handling_witness :
    process_row rBug0 []
      = Except.ok (dictInsert 0 (extend1 (bucketAt [] 0) rBug0) [])
    ∧ ((extend1 (bucketAt [] 0) rBug0).counterOf IType.bug).points
        = ((bucketAt [] 0).counterOf IType.bug).points
    ∧ (extend1 (bucketAt [] 5) rBugP).days_per_point
        = (bucketAt [] 5).days_per_point
          ++ [⟨rBugP.key, 5 - 4 + 1, 3,
                round1 (((5 - 4 + 1 : ℤ) : ℚ) / 3)⟩] :=
  ⟨(c5_points_handling rBug0 [] IType.bug 0 0 rfl rfl (by decide)).1,
   ((c5_points_handling rBug0 [] IType.bug 0 0 rfl rfl
      (by decide)).2.2.2.1 (Or.inl rfl)).1,
   ((c5_points_handling rBugP [] IType.bug 5 4 rfl rfl
      (by decide)).2.2.2.2 3 rfl (by decide)).2⟩

theorem c6_pairwise_relations_witness :
    calculate_pairwise_relations ([0, 2, 0, 3, 0, 4] : List ℚ)
      = [if ([0, 2, 0, 3, 0, 4] : List ℚ).getD 0 0 = 0 then 0
           else ([0, 2, 0, 3, 0, 4] : List ℚ).getD 1 0
             / ([0, 2, 0, 3, 0, 4] : List ℚ).getD 0 0,
         if ([0, 2, 0, 3, 0, 4] : List ℚ).getD 2 0 = 0 then 0
           else ([0, 2, 0, 3, 0, 4] : List ℚ).getD 3 0
             / ([0, 2, 0, 3, 0, 4] : List ℚ).getD 2 0,
         if ([0, 2, 0, 3, 0, 4] : List ℚ).getD 4 0 = 0 then 0
           else ([0, 2, 0, 3, 0, 4] : List ℚ).getD 5 0
             / ([0, 2, 0, 3, 0, 4] : List ℚ).getD 4 0] :=
  c6_pairwise_relations [0, 2, 0, 3, 0, 4] (by decide)

theorem c7_distribution_witness :
    (0 : ℚ) < 3
    ∧ ([1, 0, 0] : List ℕ)
        = [bucketCount aggW 0 3, bucketCount aggW 1 3,
            bucketCount aggW 2 3] :=
  ⟨((c7_distribution aggW).2 (3, [1, 0, 0]) (by decide)).1,
   ((c7_distribution aggW).2 (3, [1, 0, 0]) (by decide)).2.2⟩

theorem c8_big_points_witness :
    find_big_points rowsW
      = Except.ok [⟨7, "story", PointsField.num 8, "G-1"⟩] := by
  rw [c8_big_points rowsW (by decide)]
  rfl

theorem c9_days_no_clamp_witness :
    process_row rLate []
      = Except.ok (dictInsert 0 (extend1 (bucketAt [] 0) rLate) [])
    ∧ (extend1 (bucketAt [] 0) rLate).board_days
        = (bucketAt [] 0).board_days ++ [⟨rLate.key, 0 - 3 + 1⟩]
    ∧ (0 - 3 + 1 : ℤ) ≤ 0 :=
  ⟨(c9_days_no_clamp rLate [] 0 3 rfl rfl (by decide)).1,
   (c9_days_no_clamp rLate [] 0 3 rfl rfl (by decide)).2.1,
   (c9_days_no_clamp rLate [] 0 3 rfl rfl (by decide)).2.2.2 (by decide)⟩

theorem c10_failure_iff_witness :
    (process_row rBug0 []).isOk = true :=
  (c10_failure_iff rBug0 []).mpr (by decide)

/-- Claim C5 (failed by the code on the CSV path): a CSV row whose points
cell is the numeric text `'3'` (valid dates, valid type) makes
`process_row` die with `TypeError` at `round((board_time.days + 1) / p, 1)`
instead of adding the points and appending the claimed `days_per_point`
entry; and the points cell `'0'` — the claim's "literal 0" as the CSV path
delivers it — passes the guard `p != '' and p != 0` (a string never equals
the integer `0`) and dies the same way instead of being treated as
unestimated.  The claim holds only for the numeric-or-empty cells of the
Jira path (`c5_points_handling` above); the missing `float` conversion
before the division is the code's slip. -/
theorem c5_csv_points_crash :
    raw_process_row rCsvEst [] = Except.error PyError.typeErrorDiv
    ∧ raw_process_row rCsvZero [] = Except.error PyError.typeErrorDiv :=
  ⟨rfl, rfl⟩

/-- Claim C8 (failed by the code on the CSV path): `find_big_points`
evaluates `p > POINTS_THRESHOLD` on the raw cell, and on CSV input every
cell is a string, so the scan dies with `TypeError` at the first data row
— for a row with points text `'8'` (which the claim says must be
returned) just as for a row with the empty cell — instead of returning
the claimed filter.  The claim holds on the numeric (Jira) cells
(`c8_big_points` above). -/
theorem c8_csv_cmp_crash :
    raw_find_big_points [rCsvHdr, rCsvBig] = Except.error PyError.typeErrorCmp
    ∧ raw_find_big_points [rCsvHdr, rCsvEmpty]
        = Except.error PyError.typeErrorCmp :=
  ⟨rfl, rfl⟩

/-- Claim C10 (failed by the code on the CSV path): a row whose two date
cells parse and whose type is recognized — both of the claim's conditions
hold — still raises, with `TypeError` (not a record-level parse error),
because its points cell is the text `'3'`.  So "rows satisfying both
conditions are processed without raising" is false of the program; the
iff holds only on the numeric-or-empty points cells
(`c10_failure_iff` above). -/
theorem c10_csv_points_crash :
    raw_process_row rCsvEst [] = Except.error PyError.typeErrorDiv
    ∧ rCsvEst.resolved ≠ DateField.invalid
    ∧ rCsvEst.board ≠ DateField.invalid
    ∧ strLower rCsvEst.itype ∈ (["bug", "task", "story"] : List String) :=
  ⟨rfl, by decide, by decide, by decide⟩
